import Mathlib

/-!
Shallow embedding of `synchronizer/batches.go` from the
cdk-data-availability repository (the batch synchronizer): the data
model, the committee-based resolution algorithm (`resolve`,
`resolveWithMember`), the transactional persistence step (`store`,
`rollback`), the orchestration (`handleSequenceBatches`,
`resolveAndStore`) and the start-block recomputation
(`getStartBlock`).

Machine integers (`uint64` block numbers), addresses and content
hashes are modelled as `Nat` (no arithmetic in the source can
overflow a `uint64`: the only operation is `start - 1` guarded by
`start > 0`).  Byte strings are `List Nat`.  External collaborators
(the member RPC client, the committee refresh, the permutation drawn
from the process RNG, and the database's success/failure behaviour)
are passed in as explicit parameters, so every code path of the
source is a path of the model.  Instrumentation fields
(`visited`, `resolvedKeys`, `beginAttempted`, `rollbackCalled`)
record which observable side effects the corresponding Go code
performs, without changing any result value.
-/

namespace BatchSync

instance {ε α : Type} [DecidableEq ε] [DecidableEq α] :
    DecidableEq (Except ε α) := fun a b =>
  match a, b with
  | .ok x, .ok y =>
    if h : x = y then isTrue (congrArg Except.ok h)
    else isFalse (fun hc => h (Except.ok.inj hc))
  | .error x, .error y =>
    if h : x = y then isTrue (congrArg Except.error h)
    else isFalse (fun hc => h (Except.error.inj hc))
  | .ok _, .error _ => isFalse (fun hc => Except.noConfusion hc)
  | .error _, .ok _ => isFalse (fun hc => Except.noConfusion hc)

/-- `etherman.DataCommitteeMember`: an on-chain address and a URL.
Addresses and endpoints are modelled as `Nat`.  The Go zero value
`DataCommitteeMember{}` is `zeroMember`. -/
structure Member where
  addr : Nat
  url : Nat
deriving DecidableEq

/-- The Go zero value of `DataCommitteeMember` (produced by
`make([]Member, n)` before any element is appended). -/
def zeroMember : Member := ⟨0, 0⟩

/-- `offchaindata.OffChainData`: a content key together with the
payload bytes. -/
structure OffChainData where
  key : Nat
  value : List Nat
deriving DecidableEq

/-- The error values the synchronizer produces or propagates.
`memberNotFound` is the RPC error `types.NewRPCError(types.NotFoundErrorCode,
"data not found")` built inside `resolveWithMember`; `notFound key` is the
distinct RPC error `types.NewRPCError(types.NotFoundErrorCode,
"no data found for key %v", key)` returned by `resolve` after exhausting the
members; `refreshFailed` propagates a `resolveCommittee` failure; the four
db errors name which storage step of `store` failed; `parseFailed` stands
for a `parseEvent` decoding failure. -/
inductive SyncError where
  | memberNotFound
  | notFound (key : Nat)
  | refreshFailed
  | beginFailed
  | writeDataFailed
  | writeBlockFailed
  | commitFailed
  | parseFailed
deriving DecidableEq

/-- The outcome of one `client.GetOffChainData` call to one member:
either a transport failure or the returned bytes (possibly empty).
This is the member-client interface of the spec (§6): the wire client
itself is outside this file. -/
abbrev MemberResponse := Except Unit (List Nat)

/-- `resolveWithMember` (batches.go:238-254): query one member for the key.
Empty bytes (which is all a transport failure yields) turn the error into
the not-found RPC error; non-empty bytes are accepted as
`OffChainData{Key: key, Value: bytes}` with no further check. -/
def resolveWithMember (key : Nat) (query : Member → MemberResponse)
    (member : Member) : Except SyncError OffChainData :=
  match query member with
  | .error _ => .error .memberNotFound
  | .ok bytes =>
    if bytes.isEmpty then .error .memberNotFound
    else .ok { key := key, value := bytes }

/-- `true` iff `resolveWithMember` succeeds on this member. -/
def memberHit (key : Nat) (query : Member → MemberResponse)
    (member : Member) : Bool :=
  match resolveWithMember key query member with
  | .ok _ => true
  | .error _ => false

/-- `delete(bs.committee, addr)` on the committee cache.  The cache is a
Go map keyed by address (addresses are unique), modelled as a list;
deletion removes the entries carrying that address. -/
def evict (cache : List Member) (a : Nat) : List Member :=
  cache.filter (fun m => m.addr != a)

/-- Result of one `resolve` call: the returned value or error, the
committee cache after the call (`delete` mutates it), and the members
actually queried, in order. -/
structure ResolveOutcome where
  result : Except SyncError OffChainData
  cache : List Member
  visited : List Member
deriving DecidableEq

/-- The member-visiting loop of `resolve` (batches.go:225-235): try each
member of the snapshot in the given order; on error evict that member's
address from the cache and continue; on success return at once; after the
last member fail with the not-found RPC error for the key. -/
def visitMembers (key : Nat) (query : Member → MemberResponse) :
    List Member → List Member → ResolveOutcome
  | [], cache => ⟨.error (.notFound key), cache, []⟩
  | m :: rest, cache =>
    match resolveWithMember key query m with
    | .ok v => ⟨.ok v, cache, [m]⟩
    | .error _ =>
      let o := visitMembers key query rest (evict cache m.addr)
      ⟨o.result, o.cache, m :: o.visited⟩

/-- The member snapshot built by `resolve` (batches.go:219-222):
`members := make([]Member, len(committee))` followed by
`append` in the range loop.  `make` fills `len(committee)` slots with the
zero value and `append` grows the slice after them, so the snapshot is
the zero-valued placeholders followed by the cache members. -/
def memberSnapshot (cache : List Member) : List Member :=
  List.replicate cache.length zeroMember ++ cache

/-- The visiting order of `resolve`: `rand.Perm(len(members))` yields a
permutation `perm` of the snapshot indices, and the loop reads
`members[r]` for each `r`.  The permutation is a parameter; theorems
assume it is a permutation of `range (memberSnapshot cache).length`. -/
def visitOrder (perm : List Nat) (cache : List Member) : List Member :=
  perm.map (fun r => (memberSnapshot cache).getD r zeroMember)

/-- `resolve` (batches.go:211-236): if the cache is empty refresh it
first (`resolveCommittee`), propagating failure with the cache untouched;
then visit the snapshot in the permuted order.  `refresh` is the outcome
of `resolveCommittee` (the on-chain committee minus self), a parameter
since the chain client is external. -/
def resolve (key : Nat) (query : Member → MemberResponse)
    (refresh : Except Unit (List Member)) (perm : List Nat)
    (cache : List Member) : ResolveOutcome :=
  match (if cache.isEmpty then refresh else .ok cache) with
  | .error _ => ⟨.error .refreshFailed, cache, []⟩
  | .ok c => visitMembers key query (visitOrder perm c) c

/-- The durable storage state: the payload table and the
`lastProcessedBlock` record. -/
structure DBState where
  payloads : List OffChainData
  lastProcessedBlock : Nat
deriving DecidableEq

/-- Which storage steps succeed in one `store` call.  The pgx
driver is external; each step of `store` either succeeds or returns an
error, and these flags select the path taken. -/
structure DBBehavior where
  beginOk : Bool
  writeDataOk : Bool
  writeBlockOk : Bool
  commitOk : Bool
deriving DecidableEq

/-- The outcome of one `store` call: the returned error, the visible
database state afterwards, whether `BeginStateTransaction` was attempted,
and whether the `rollback` helper (batches.go:205-209) ran. -/
structure StoreOutcome where
  result : Except SyncError Unit
  db : DBState
  beginAttempted : Bool
  rollbackCalled : Bool
deriving DecidableEq

/-- `store` (batches.go:181-203): begin a transaction, write the
payloads, write the new `lastProcessedBlock`, commit.  A failing payload
or pointer write calls `rollback` and returns the error; a failing begin
or commit returns the error without calling `rollback`.  Modelled from
the spec (§6 storage backend): writes made inside the transaction become
visible only at a successful commit, so the visible `DBState` is
unchanged on every failing path and updated in one step on success. -/
def store (beh : DBBehavior) (block : Nat) (data : List OffChainData)
    (db : DBState) : StoreOutcome :=
  if beh.beginOk = false then ⟨.error .beginFailed, db, true, false⟩
  else if beh.writeDataOk = false then ⟨.error .writeDataFailed, db, true, true⟩
  else if beh.writeBlockOk = false then ⟨.error .writeBlockFailed, db, true, true⟩
  else if beh.commitOk = false then ⟨.error .commitFailed, db, true, false⟩
  else ⟨.ok (), ⟨db.payloads ++ data, block⟩, true, false⟩

/-- The resolution loop of `resolveAndStore` (batches.go:169-177): resolve
each key in order, threading the committee cache (each call draws a fresh
permutation `perms i`); stop at the first failure.  Returns the resolved
payloads (or the first error), the final cache, and the keys on which
`resolve` was invoked, in order. -/
def resolveAll (query : Member → MemberResponse)
    (refresh : Except Unit (List Member)) (perms : Nat → List Nat) :
    Nat → List Nat → List Member →
    Except SyncError (List OffChainData) × List Member × List Nat
  | _, [], cache => (.ok [], cache, [])
  | i, k :: ks, cache =>
    let o := resolve k query refresh (perms i) cache
    match o.result with
    | .error e => (.error e, o.cache, [k])
    | .ok v =>
      match resolveAll query refresh perms (i + 1) ks o.cache with
      | (.error e, c, tried) => (.error e, c, k :: tried)
      | (.ok vs, c, tried) => (.ok (v :: vs), c, k :: tried)

/-- Outcome of `handleSequenceBatches` / `resolveAndStore`: the returned
error, the final committee cache and database state, whether a storage
transaction begin was attempted, whether `rollback` ran, the keys probed
for existence, and the keys on which `resolve` was invoked. -/
structure HandleOutcome where
  result : Except SyncError Unit
  cache : List Member
  db : DBState
  beginAttempted : Bool
  rollbackCalled : Bool
  probedKeys : List Nat
  resolvedKeys : List Nat
deriving DecidableEq

/-- `resolveAndStore` (batches.go:169-179): resolve every key; on any
resolution failure return that error so that the block does not get
stored; otherwise `store` the resolved data under the block number. -/
def resolveAndStore (query : Member → MemberResponse)
    (refresh : Except Unit (List Member)) (perms : Nat → List Nat)
    (beh : DBBehavior) (block : Nat) (keys : List Nat)
    (cache : List Member) (db : DBState) : HandleOutcome :=
  match resolveAll query refresh perms 0 keys cache with
  | (.error e, c, tried) => ⟨.error e, c, db, false, false, [], tried⟩
  | (.ok data, c, tried) =>
    let s := store beh block data db
    ⟨s.result, c, s.db, s.beginAttempted, s.rollbackCalled, [], tried⟩

/-- `bs.db.Exists` (batches.go:163-167).  Modelled from the spec (§4.5,
§6): the existence probe checks the payload table for the content key. -/
def existsKey (db : DBState) (k : Nat) : Bool :=
  db.payloads.any (fun d => d.key == k)

/-- `handleSequenceBatches` (batches.go:147-161): decode the event (the
ABI decoding itself is external, so the decoded block number and key
list, or the decode failure, is the `parsed` parameter), probe every key
for existence, and resolve-and-store exactly the missing ones. -/
def handleSequenceBatches (query : Member → MemberResponse)
    (refresh : Except Unit (List Member)) (perms : Nat → List Nat)
    (beh : DBBehavior) (parsed : Except SyncError (Nat × List Nat))
    (cache : List Member) (db : DBState) : HandleOutcome :=
  match parsed with
  | .error e => ⟨.error e, cache, db, false, false, [], []⟩
  | .ok (block, keys) =>
    let o := resolveAndStore query refresh perms beh block
      (keys.filter (fun k => !(existsKey db k))) cache db
    { o with probedKeys := keys }

/-- `getStartBlock` (batches.go:128-140): read `lastProcessedBlock`; on a
read failure log and keep going with the Go zero value 0 (modelled from
the spec, §6: the db read, outside this file, yields a value or a
failure and the multi-return zero value on failure); subtract one when
the value is positive; return the start value together with the read
error, which is surfaced to the caller unchanged. -/
def getStartBlock (read : Except Unit Nat) : Nat × Option Unit :=
  let start := match read with | .ok v => v | .error _ => 0
  let err : Option Unit := match read with | .ok _ => none | .error e => some e
  (if start > 0 then start - 1 else start, err)

/-- Modelled from the spec: §3 and §4.4 — the content key is the hash of
the payload bytes; the concrete hash function lives outside this
repository, so a stand-in encoding of byte strings into `Nat` is used. -/
def contentHash (bytes : List Nat) : Nat :=
  bytes.foldl (fun a b => a * 257 + b + 1) 0

/-- Modelled from the spec: §4.4 mandates that a returned payload be
validated to hash to the requested key before acceptance, a mismatch
counting as a failed resolution for that member.  This is the variant
the spec describes; `resolveWithMember` is what the code does. -/
def resolveWithMemberVerified (key : Nat) (query : Member → MemberResponse)
    (member : Member) : Except SyncError OffChainData :=
  match query member with
  | .error _ => .error .memberNotFound
  | .ok bytes =>
    if bytes.isEmpty then .error .memberNotFound
    else if contentHash bytes = key then .ok { key := key, value := bytes }
    else .error .memberNotFound

/-- C1 (amended): `store` performs all writes inside one transaction:
it succeeds exactly when every step succeeds, in which case the payloads
and the new `lastProcessedBlock` become visible together; on every
failing path the call fails as a whole and the visible state is
unchanged; the explicit `rollback` helper runs exactly when the payload
write or the pointer write fails, while a failing begin or commit
returns without invoking it. -/
theorem store_atomicity_amended (beh : DBBehavior) (block : Nat)
    (data : List OffChainData) (db : DBState) :
    ((store beh block data db).result = .ok () ↔
      (beh.beginOk = true ∧ beh.writeDataOk = true ∧
        beh.writeBlockOk = true ∧ beh.commitOk = true)) ∧
    ((store beh block data db).result ≠ .ok () →
      (store beh block data db).db = db) ∧
    ((store beh block data db).result = .ok () →
      (store beh block data db).db = ⟨db.payloads ++ data, block⟩) ∧
    ((store beh block data db).rollbackCalled = true ↔
      (beh.beginOk = true ∧
        (beh.writeDataOk = false ∨ beh.writeBlockOk = false))) := by
  obtain ⟨b1, b2, b3, b4⟩ := beh
  cases b1 <;> cases b2 <;> cases b3 <;> cases b4 <;> simp [store]

/-- C1 counterexample: when the commit step fails, `store` fails but the
`rollback` helper is not invoked, contradicting the claim that a failure
of any step (begin, payload write, pointer write, or commit) triggers a
rollback of the transaction. -/
theorem store_commit_failure_no_rollback :
    (store ⟨true, true, true, false⟩ 5 [⟨1, [2]⟩] ⟨[], 0⟩).result
        = .error .commitFailed ∧
    (store ⟨true, true, true, false⟩ 5 [⟨1, [2]⟩] ⟨[], 0⟩).rollbackCalled
        = false := by
  decide

theorem store_atomicity_amended_witness :
    (store ⟨true, false, true, true⟩ 3 [] ⟨[], 0⟩).db = ⟨[], 0⟩ ∧
    (store ⟨true, false, true, true⟩ 3 [] ⟨[], 0⟩).rollbackCalled = true :=
  ⟨(store_atomicity_amended ⟨true, false, true, true⟩ 3 [] ⟨[], 0⟩).2.1
      (by decide),
   (store_atomicity_amended ⟨true, false, true, true⟩ 3 [] ⟨[], 0⟩).2.2.2.mpr
      ⟨rfl, Or.inl rfl⟩⟩

/-- C6: the member snapshot built by `resolve` is not the cache members
alone: `make([]Member, len(committee))` followed by `append` leaves
`len(committee)` zero-valued placeholder entries in front of the cache
members, and the visiting order ranges over those placeholders too.
Evaluated at a cache of exactly one member. -/
theorem member_snapshot_includes_placeholder :
    memberSnapshot [⟨1, 1⟩] = [zeroMember, ⟨1, 1⟩] ∧
    (memberSnapshot [⟨1, 1⟩]).length = 2 ∧
    visitOrder [0, 1] [⟨1, 1⟩] = [zeroMember, ⟨1, 1⟩] ∧
    zeroMember ∉ ([⟨1, 1⟩] : List Member) := by
  decide

/-- C7 counterexample: `resolveWithMember` accepts a non-empty payload
whose bytes do not hash to the requested key, where the spec-modelled
verifying variant rejects it as a failed resolution for that member. -/
theorem resolveWithMember_accepts_mismatched_payload :
    resolveWithMember 1 (fun _ => .ok [5]) ⟨1, 1⟩ = .ok ⟨1, [5]⟩ ∧
    contentHash [5] ≠ 1 ∧
    resolveWithMemberVerified 1 (fun _ => .ok [5]) ⟨1, 1⟩
        = .error .memberNotFound := by
  decide

/-- C7 (amended): `resolveWithMember` performs no validation of the
returned bytes against the key: any non-empty response is accepted
verbatim as the payload stored under the requested key, and no mismatch
is ever surfaced. -/
theorem resolveWithMember_no_validation (key : Nat) (bytes : List Nat)
    (query : Member → MemberResponse) (member : Member)
    (hq : query member = .ok bytes) (hne : bytes ≠ []) :
    resolveWithMember key query member = .ok ⟨key, bytes⟩ := by
  simp [resolveWithMember, hq, hne]

theorem resolveWithMember_no_validation_witness :
    resolveWithMember 1 (fun _ => .ok [5]) ⟨1, 1⟩ = .ok ⟨1, [5]⟩ :=
  resolveWithMember_no_validation 1 [5] (fun _ => .ok [5]) ⟨1, 1⟩ rfl
    (by decide)

lemma visitMembers_nil (key : Nat) (query : Member → MemberResponse)
    (cache : List Member) :
    visitMembers key query [] cache = ⟨.error (.notFound key), cache, []⟩ :=
  rfl

lemma visitMembers_cons_ok (key : Nat) (query : Member → MemberResponse)
    (x : Member) (rest cache : List Member) (v : OffChainData)
    (hr : resolveWithMember key query x = .ok v) :
    visitMembers key query (x :: rest) cache = ⟨.ok v, cache, [x]⟩ := by
  simp [visitMembers, hr]

lemma visitMembers_cons_error (key : Nat) (query : Member → MemberResponse)
    (x : Member) (rest cache : List Member) (e : SyncError)
    (hr : resolveWithMember key query x = .error e) :
    visitMembers key query (x :: rest) cache =
      ⟨(visitMembers key query rest (evict cache x.addr)).result,
       (visitMembers key query rest (evict cache x.addr)).cache,
       x :: (visitMembers key query rest (evict cache x.addr)).visited⟩ := by
  simp [visitMembers, hr]

lemma memberHit_true_of_ok {key : Nat} {query : Member → MemberResponse}
    {m : Member} {v : OffChainData}
    (hr : resolveWithMember key query m = .ok v) :
    memberHit key query m = true := by
  simp [memberHit, hr]

lemma memberHit_false_of_error {key : Nat} {query : Member → MemberResponse}
    {m : Member} {e : SyncError}
    (hr : resolveWithMember key query m = .error e) :
    memberHit key query m = false := by
  simp [memberHit, hr]

lemma visitMembers_find (key : Nat) (query : Member → MemberResponse) :
    ∀ (order cache : List Member) (m : Member),
      order.find? (memberHit key query) = some m →
      (visitMembers key query order cache).result
          = resolveWithMember key query m ∧
      (visitMembers key query order cache).visited
          = order.takeWhile (fun x => !(memberHit key query x)) ++ [m] := by
  intro order
  induction order with
  | nil => intro cache m h; simp [List.find?] at h
  | cons x rest ih =>
    intro cache m h
    cases hr : resolveWithMember key query x with
    | ok v =>
      have hx := memberHit_true_of_ok hr
      rw [List.find?_cons_of_pos _ hx] at h
      have hm : x = m := by injection h
      subst hm
      rw [visitMembers_cons_ok key query x rest cache v hr]
      refine ⟨hr.symm, ?_⟩
      rw [List.takeWhile_cons_of_neg (by simp [hx])]
      simp
    | error e =>
      have hx := memberHit_false_of_error hr
      rw [List.find?_cons_of_neg _ (by simp [hx])] at h
      obtain ⟨r1, r2⟩ := ih (evict cache x.addr) m h
      rw [visitMembers_cons_error key query x rest cache e hr]
      refine ⟨r1, ?_⟩
      rw [List.takeWhile_cons_of_pos (by simp [hx])]
      simp [r2]

lemma visitMembers_all_fail (key : Nat) (query : Member → MemberResponse) :
    ∀ (order cache : List Member),
      (∀ m ∈ order, memberHit key query m = false) →
      (visitMembers key query order cache).result
          = .error (.notFound key) ∧
      (visitMembers key query order cache).cache
          = cache.filter
              (fun y => !(order.any (fun o => y.addr == o.addr))) ∧
      (visitMembers key query order cache).visited = order := by
  intro order
  induction order with
  | nil => intro cache h; simp [visitMembers]
  | cons x rest ih =>
    intro cache h
    have hx : memberHit key query x = false := h x (by simp)
    cases hr : resolveWithMember key query x with
    | ok v =>
      have := memberHit_true_of_ok hr
      rw [hx] at this
      exact Bool.noConfusion this
    | error e =>
      have hrest : ∀ m ∈ rest, memberHit key query m = false :=
        fun m hm => h m (by simp [hm])
      obtain ⟨r1, r2, r3⟩ := ih (evict cache x.addr) hrest
      rw [visitMembers_cons_error key query x rest cache e hr]
      refine ⟨r1, ?_, by simp [r3]⟩
      show (visitMembers key query rest (evict cache x.addr)).cache = _
      rw [r2, evict, List.filter_filter]
      refine List.filter_congr ?_
      intro y _
      simp [List.any_cons, Bool.not_or, bne, Bool.and_comm]

lemma visitMembers_cache_subset (key : Nat) (query : Member → MemberResponse) :
    ∀ (order cache : List Member) (y : Member),
      y ∈ (visitMembers key query order cache).cache → y ∈ cache := by
  intro order
  induction order with
  | nil => intro cache y hy; exact hy
  | cons x rest ih =>
    intro cache y hy
    cases hr : resolveWithMember key query x with
    | ok v =>
      rw [visitMembers_cons_ok key query x rest cache v hr] at hy
      exact hy
    | error e =>
      rw [visitMembers_cons_error key query x rest cache e hr] at hy
      exact List.mem_of_mem_filter (ih (evict cache x.addr) y hy)

lemma visitMembers_failed_evicted (key : Nat) (query : Member → MemberResponse) :
    ∀ (order cache : List Member) (m : Member),
      m ∈ (visitMembers key query order cache).visited →
      memberHit key query m = false →
      m.addr ∉ ((visitMembers key query order cache).cache).map Member.addr := by
  intro order
  induction order with
  | nil => intro cache m hm _; simp [visitMembers] at hm
  | cons x rest ih =>
    intro cache m hm hfail
    cases hr : resolveWithMember key query x with
    | ok v =>
      rw [visitMembers_cons_ok key query x rest cache v hr] at hm
      have hm2 : m = x := by simpa using hm
      subst hm2
      have := memberHit_true_of_ok hr
      rw [hfail] at this
      exact Bool.noConfusion this
    | error e =>
      rw [visitMembers_cons_error key query x rest cache e hr] at hm ⊢
      have hm2 : m = x ∨
          m ∈ (visitMembers key query rest (evict cache x.addr)).visited := by
        simpa using hm
      rcases hm2 with hmx | hmr
      · subst hmx
        intro hmem
        have hmem2 : m.addr ∈
            ((visitMembers key query rest (evict cache m.addr)).cache).map
              Member.addr := by simpa using hmem
        simp only [List.mem_map] at hmem2
        obtain ⟨y, hy, hya⟩ := hmem2
        have hy2 : y ∈ evict cache m.addr :=
          visitMembers_cache_subset key query rest (evict cache m.addr) y hy
        rw [evict] at hy2
        have hne : (y.addr != m.addr) = true := by
          simpa using List.of_mem_filter hy2
        rw [hya] at hne
        simp [bne] at hne
      · exact ih (evict cache x.addr) m hmr hfail

lemma mem_visitOrder_of_mem_cache (perm : List Nat) (cache : List Member)
    (hperm : perm.Perm (List.range (memberSnapshot cache).length))
    (m : Member) (hm : m ∈ cache) : m ∈ visitOrder perm cache := by
  have hms : m ∈ memberSnapshot cache := by simp [memberSnapshot, hm]
  obtain ⟨i, hi, hgi⟩ := List.getElem_of_mem hms
  have hiperm : i ∈ perm := hperm.mem_iff.mpr (by simpa [List.mem_range] using hi)
  have hgd : (memberSnapshot cache).getD i zeroMember = m := by
    rw [List.getD_eq_getElem?_getD, List.getElem?_eq_getElem hi]
    simpa using hgi
  rw [visitOrder]
  exact hgd ▸ List.mem_map_of_mem _ hiperm

lemma resolve_eq_visitMembers (key : Nat) (query : Member → MemberResponse)
    (refresh : Except Unit (List Member)) (perm : List Nat)
    (cache : List Member) (h1 : cache ≠ []) :
    resolve key query refresh perm cache
      = visitMembers key query (visitOrder perm cache) cache := by
  have hne : cache.isEmpty = false := by
    cases cache with
    | nil => exact absurd rfl h1
    | cons a l => rfl
  simp [resolve, hne]

/-- C3: whenever some member in the visiting order answers with
non-empty bytes, `resolve` succeeds, returns the payload of the first
such member (whatever failures the members before it produced), and
queries no member beyond that first success: the visited list is exactly
the failing prefix followed by the successful member. -/
theorem resolve_first_success (key : Nat) (query : Member → MemberResponse)
    (refresh : Except Unit (List Member)) (perm : List Nat)
    (cache : List Member) (m : Member) (h1 : cache ≠ [])
    (h2 : (visitOrder perm cache).find? (memberHit key query) = some m) :
    (resolve key query refresh perm cache).result
        = resolveWithMember key query m ∧
    (∃ bytes, bytes ≠ [] ∧ query m = Except.ok bytes ∧
      (resolve key query refresh perm cache).result
          = .ok ⟨key, bytes⟩) ∧
    (resolve key query refresh perm cache).visited
        = (visitOrder perm cache).takeWhile
            (fun x => !(memberHit key query x)) ++ [m] := by
  rw [resolve_eq_visitMembers key query refresh perm cache h1]
  obtain ⟨r1, r2⟩ := visitMembers_find key query (visitOrder perm cache) cache m h2
  have hp : memberHit key query m = true := List.find?_some h2
  refine ⟨r1, ?_, r2⟩
  cases hq : query m with
  | error e =>
    have hcontra : memberHit key query m = false := by
      simp [memberHit, resolveWithMember, hq]
    rw [hp] at hcontra
    exact Bool.noConfusion hcontra
  | ok bytes =>
    cases hb : bytes.isEmpty with
    | true =>
      have hcontra : memberHit key query m = false := by
        simp [memberHit, resolveWithMember, hq, hb]
      rw [hp] at hcontra
      exact Bool.noConfusion hcontra
    | false =>
      have hbne : bytes ≠ [] := by
        intro hnil
        rw [hnil] at hb
        exact absurd hb (by decide)
      refine ⟨bytes, hbne, rfl, ?_⟩
      rw [r1]
      simp [resolveWithMember, hq, hb]

theorem resolve_first_success_witness :
    (resolve 7 (fun mem => if mem.addr == 2 then .ok [9] else .error ())
        (Except.ok []) [0, 1, 2, 3] [⟨1, 1⟩, ⟨2, 2⟩]).result
      = resolveWithMember 7
          (fun mem => if mem.addr == 2 then .ok [9] else .error ()) ⟨2, 2⟩ :=
  (resolve_first_success 7
    (fun mem => if mem.addr == 2 then .ok [9] else .error ())
    (Except.ok []) [0, 1, 2, 3] [⟨1, 1⟩, ⟨2, 2⟩] ⟨2, 2⟩
    (by decide) (by decide)).1

/-- C5: a member that fails the key (zero-length payload or transport
failure) is evicted from the committee cache while resolution continues:
every failing visited member's address is absent from the final cache,
and the presence of any succeeding member in the visiting order still
yields a successful result; only when every member of the order fails
does `resolve` fail, and then it fails with the distinct not-found RPC
error for the key and leaves the cache empty. -/
theorem resolve_eviction_exhaustion (key : Nat)
    (query : Member → MemberResponse) (refresh : Except Unit (List Member))
    (perm : List Nat) (cache : List Member) (h1 : cache ≠ [])
    (h2 : perm.Perm (List.range (memberSnapshot cache).length)) :
    ((∀ m ∈ visitOrder perm cache, memberHit key query m = false) →
      (resolve key query refresh perm cache).result
          = .error (.notFound key) ∧
      (resolve key query refresh perm cache).cache = []) ∧
    (∀ m ∈ (resolve key query refresh perm cache).visited,
      memberHit key query m = false →
      m.addr ∉ ((resolve key query refresh perm cache).cache).map Member.addr) ∧
    (∀ m, (visitOrder perm cache).find? (memberHit key query) = some m →
      ∃ v, (resolve key query refresh perm cache).result = .ok v) := by
  rw [resolve_eq_visitMembers key query refresh perm cache h1]
  refine ⟨?_, ?_, ?_⟩
  · intro hall
    obtain ⟨r1, r2, _⟩ :=
      visitMembers_all_fail key query (visitOrder perm cache) cache hall
    refine ⟨r1, ?_⟩
    rw [r2, List.filter_eq_nil_iff]
    intro y hy
    have hmem : y ∈ visitOrder perm cache :=
      mem_visitOrder_of_mem_cache perm cache h2 y hy
    intro hcontra
    have hany : ((visitOrder perm cache).any
        (fun o => y.addr == o.addr)) = false := by
      simpa using hcontra
    have hall2 := List.any_eq_false.mp hany y hmem
    simp at hall2
  · intro m hm hfail
    exact visitMembers_failed_evicted key query (visitOrder perm cache)
      cache m hm hfail
  · intro m hfind
    obtain ⟨r1, _⟩ :=
      visitMembers_find key query (visitOrder perm cache) cache m hfind
    have hp : memberHit key query m = true := List.find?_some hfind
    rw [r1]
    cases hr : resolveWithMember key query m with
    | ok v => exact ⟨v, rfl⟩
    | error e =>
      have := memberHit_false_of_error hr
      rw [hp] at this
      exact Bool.noConfusion this

theorem resolve_eviction_exhaustion_witness :
    (resolve 7 (fun _ => Except.error ()) (Except.ok [])
        [0, 1] [⟨1, 1⟩]).result = .error (.notFound 7) ∧
    (resolve 7 (fun _ => Except.error ()) (Except.ok [])
        [0, 1] [⟨1, 1⟩]).cache = [] :=
  (resolve_eviction_exhaustion 7 (fun _ => Except.error ())
    (Except.ok []) [0, 1] [⟨1, 1⟩] (by decide) (by decide)).1
    (by decide)

lemma resolveAll_cons (query : Member → MemberResponse)
    (refresh : Except Unit (List Member)) (perms : Nat → List Nat)
    (i k : Nat) (ks : List Nat) (cache : List Member) :
    resolveAll query refresh perms i (k :: ks) cache =
      match (resolve k query refresh (perms i) cache).result with
      | .error e =>
        (.error e, (resolve k query refresh (perms i) cache).cache, [k])
      | .ok v =>
        match resolveAll query refresh perms (i + 1) ks
            (resolve k query refresh (perms i) cache).cache with
        | (.error e, c, tried) => (.error e, c, k :: tried)
        | (.ok vs, c, tried) => (.ok (v :: vs), c, k :: tried) := rfl

lemma resolveAll_keys_subset (query : Member → MemberResponse)
    (refresh : Except Unit (List Member)) (perms : Nat → List Nat) :
    ∀ (ks : List Nat) (i : Nat) (cache : List Member) (k : Nat),
      k ∈ (resolveAll query refresh perms i ks cache).2.2 → k ∈ ks := by
  intro ks
  induction ks with
  | nil => intro i cache k hk; simp [resolveAll] at hk
  | cons a ks ih =>
    intro i cache k hk
    rw [resolveAll_cons] at hk
    cases hres : (resolve a query refresh (perms i) cache).result with
    | error e =>
      rw [hres] at hk
      simp at hk
      simp [hk]
    | ok v =>
      rw [hres] at hk
      rcases htail : resolveAll query refresh perms (i + 1) ks
          (resolve a query refresh (perms i) cache).cache with ⟨res2, c2, tried2⟩
      rw [htail] at hk
      have htried : k ∈ a :: tried2 := by
        cases res2 <;> simpa using hk
      rcases List.mem_cons.mp htried with hka | hkt
      · simp [hka]
      · refine List.mem_cons_of_mem _ (ih (i + 1)
          (resolve a query refresh (perms i) cache).cache k ?_)
        rw [htail]
        exact hkt

/-- C2: if the resolution pass over the missing keys of a decoded event
fails, handling of the whole batch fails with that error before any
storage write: the visible database state is unchanged (no payload
stored, `lastProcessedBlock` not advanced), no transaction begin is
attempted, and no rollback runs. -/
theorem resolution_failure_blocks_store (query : Member → MemberResponse)
    (refresh : Except Unit (List Member)) (perms : Nat → List Nat)
    (beh : DBBehavior) (block : Nat) (keys : List Nat)
    (cache : List Member) (db : DBState) (e : SyncError)
    (h : (resolveAll query refresh perms 0
        (keys.filter (fun k => !(existsKey db k))) cache).1 = .error e) :
    (handleSequenceBatches query refresh perms beh
        (.ok (block, keys)) cache db).result = .error e ∧
    (handleSequenceBatches query refresh perms beh
        (.ok (block, keys)) cache db).db = db ∧
    (handleSequenceBatches query refresh perms beh
        (.ok (block, keys)) cache db).beginAttempted = false ∧
    (handleSequenceBatches query refresh perms beh
        (.ok (block, keys)) cache db).rollbackCalled = false := by
  rcases hall : resolveAll query refresh perms 0
      (keys.filter (fun k => !(existsKey db k))) cache with ⟨res, c, tried⟩
  rw [hall] at h
  simp only at h
  subst h
  simp [handleSequenceBatches, resolveAndStore, hall]

theorem resolution_failure_blocks_store_witness :
    (handleSequenceBatches (fun _ => Except.error ()) (Except.ok [])
        (fun _ => [0, 1]) ⟨true, true, true, true⟩
        (.ok (9, [7])) [⟨1, 1⟩] ⟨[], 0⟩).result = .error (.notFound 7) ∧
    (handleSequenceBatches (fun _ => Except.error ()) (Except.ok [])
        (fun _ => [0, 1]) ⟨true, true, true, true⟩
        (.ok (9, [7])) [⟨1, 1⟩] ⟨[], 0⟩).beginAttempted = false :=
  ⟨(resolution_failure_blocks_store (fun _ => Except.error ())
      (Except.ok []) (fun _ => [0, 1]) ⟨true, true, true, true⟩
      9 [7] [⟨1, 1⟩] ⟨[], 0⟩ (.notFound 7) (by decide)).1,
   (resolution_failure_blocks_store (fun _ => Except.error ())
      (Except.ok []) (fun _ => [0, 1]) ⟨true, true, true, true⟩
      9 [7] [⟨1, 1⟩] ⟨[], 0⟩ (.notFound 7) (by decide)).2.2.1⟩

/-- C4: every key of a decoded event is probed for existence (the probed
list is the full key list), `resolve` is invoked only on keys whose
probe reported them missing, and a key already present in storage is
never resolved. -/
theorem exists_probe_short_circuits (query : Member → MemberResponse)
    (refresh : Except Unit (List Member)) (perms : Nat → List Nat)
    (beh : DBBehavior) (block : Nat) (keys : List Nat)
    (cache : List Member) (db : DBState) :
    (handleSequenceBatches query refresh perms beh
        (.ok (block, keys)) cache db).probedKeys = keys ∧
    (∀ k ∈ (handleSequenceBatches query refresh perms beh
        (.ok (block, keys)) cache db).resolvedKeys,
      k ∈ keys ∧ existsKey db k = false) ∧
    (∀ k ∈ keys, existsKey db k = true →
      k ∉ (handleSequenceBatches query refresh perms beh
        (.ok (block, keys)) cache db).resolvedKeys) := by
  rcases hall : resolveAll query refresh perms 0
      (keys.filter (fun k => !(existsKey db k))) cache with ⟨res, c, tried⟩
  have hrk : (handleSequenceBatches query refresh perms beh
      (.ok (block, keys)) cache db).resolvedKeys = tried := by
    cases res <;> simp [handleSequenceBatches, resolveAndStore, hall]
  have hpk : (handleSequenceBatches query refresh perms beh
      (.ok (block, keys)) cache db).probedKeys = keys := by
    cases res <;> simp [handleSequenceBatches, resolveAndStore, hall]
  have hmem : ∀ k ∈ tried, k ∈ keys ∧ existsKey db k = false := by
    intro k hk
    have hfil : k ∈ keys.filter (fun k => !(existsKey db k)) := by
      refine resolveAll_keys_subset query refresh perms _ 0 cache k ?_
      rw [hall]
      exact hk
    have := List.mem_filter.mp hfil
    refine ⟨this.1, ?_⟩
    simpa using this.2
  refine ⟨hpk, ?_, ?_⟩
  · rw [hrk]
    exact hmem
  · intro k _ hex hk
    rw [hrk] at hk
    have := (hmem k hk).2
    rw [hex] at this
    exact Bool.noConfusion this

theorem exists_probe_short_circuits_witness :
    7 ∈ ([7, 8] : List Nat) ∧
    existsKey ⟨[⟨8, [1]⟩], 0⟩ 7 = false :=
  (exists_probe_short_circuits (fun _ => Except.ok [9]) (Except.ok [])
    (fun _ => [0, 1]) ⟨true, true, true, true⟩ 42 [7, 8] [⟨1, 1⟩]
    ⟨[⟨8, [1]⟩], 0⟩).2.1 7 (by decide)

/-- C10: for a decoded event all of whose keys already exist in storage,
the synchronizer still runs the store step: no key is resolved, a
transaction begin is attempted, the (empty) payload write leaves the
payload table unchanged, and on storage success `lastProcessedBlock`
advances to the event's block number. -/
theorem all_known_keys_still_advance (query : Member → MemberResponse)
    (refresh : Except Unit (List Member)) (perms : Nat → List Nat)
    (block : Nat) (keys : List Nat) (cache : List Member) (db : DBState)
    (h : ∀ k ∈ keys, existsKey db k = true) :
    (handleSequenceBatches query refresh perms ⟨true, true, true, true⟩
        (.ok (block, keys)) cache db).result = .ok () ∧
    (handleSequenceBatches query refresh perms ⟨true, true, true, true⟩
        (.ok (block, keys)) cache db).beginAttempted = true ∧
    (handleSequenceBatches query refresh perms ⟨true, true, true, true⟩
        (.ok (block, keys)) cache db).resolvedKeys = [] ∧
    (handleSequenceBatches query refresh perms ⟨true, true, true, true⟩
        (.ok (block, keys)) cache db).db.payloads = db.payloads ∧
    (handleSequenceBatches query refresh perms ⟨true, true, true, true⟩
        (.ok (block, keys)) cache db).db.lastProcessedBlock = block := by
  have hfil : keys.filter (fun k => !(existsKey db k)) = [] := by
    rw [List.filter_eq_nil_iff]
    intro a ha
    simp [h a ha]
  simp [handleSequenceBatches, hfil, resolveAndStore, resolveAll, store]

theorem all_known_keys_still_advance_witness :
    (handleSequenceBatches (fun _ => Except.error ()) (Except.ok [])
        (fun _ => [0, 1]) ⟨true, true, true, true⟩
        (.ok (42, [3])) [⟨1, 1⟩] ⟨[⟨3, [1]⟩], 0⟩).result = .ok () ∧
    (handleSequenceBatches (fun _ => Except.error ()) (Except.ok [])
        (fun _ => [0, 1]) ⟨true, true, true, true⟩
        (.ok (42, [3])) [⟨1, 1⟩] ⟨[⟨3, [1]⟩], 0⟩).db.lastProcessedBlock
      = 42 :=
  ⟨(all_known_keys_still_advance (fun _ => Except.error ()) (Except.ok [])
      (fun _ => [0, 1]) 42 [3] [⟨1, 1⟩] ⟨[⟨3, [1]⟩], 0⟩ (by decide)).1,
   (all_known_keys_still_advance (fun _ => Except.error ()) (Except.ok [])
      (fun _ => [0, 1]) 42 [3] [⟨1, 1⟩] ⟨[⟨3, [1]⟩], 0⟩ (by decide)).2.2.2.2⟩

/-- C8: for a successfully read progress value `N`, `getStartBlock`
returns `N - 1` when `N > 0` and `0` when `N = 0`, with no error. -/
theorem getStartBlock_progress (N : Nat) :
    getStartBlock (Except.ok N) = (if 0 < N then N - 1 else 0, none) := by
  by_cases h : 0 < N
  · simp [getStartBlock, h]
  · have h0 : N = 0 := Nat.eq_zero_of_not_pos h
    subst h0
    simp [getStartBlock]

/-- C9: when the read of `lastProcessedBlock` fails, `getStartBlock`
returns start block `0` (the Go zero value observed from the failed
read, untouched by the decrement guard) while surfacing the read error
to the caller. -/
theorem getStartBlock_read_failure :
    getStartBlock (Except.error ()) = (0, some ()) := rfl

end BatchSync
